import Mathlib

/-!
Shallow embedding of the tic-tac-toe Q-learning program
(`tic_tac_toe_ai.py`): the environment (`TicTacToeEnv`), the agent
(`QLearningAgent`), and the self-play training loop (`train`).

Marks are the strings "X"/"O" in the source; an empty cell is " ".
We model a cell as `Option Mark` (`none` = empty).  Rewards and
Q-values (Python floats) are modelled as rationals.  The Python
`random` calls are modelled by explicit decision inputs: each call to
`choose_action` consumes one pair `(explore, pick)` where `explore`
stands for `random.uniform(0,1) < epsilon` and `pick` selects an index
for `random.choice`.
-/

namespace TicTacToe

inductive Mark where
  | X
  | O
deriving DecidableEq, Repr

/-- The opposing mark. -/
def Mark.other : Mark → Mark
  | .X => .O
  | .O => .X

abbrev Cell := Option Mark

/-- The board: a list of 9 cells (`self.board` in the source). -/
abbrev Board := List Cell

/-- A state is the board snapshot (`tuple(self.board)` in the source). -/
abbrev State := Board

abbrev Action := Nat

/-- The value of `self.winner`: a winning mark or the string "Draw". -/
inductive Winner where
  | mark (m : Mark)
  | draw
deriving DecidableEq, Repr

/-- The mutable fields of `TicTacToeEnv`. -/
structure EnvState where
  board : Board
  done : Bool
  winner : Option Winner
deriving DecidableEq, Repr

/-- Source `TicTacToeEnv.reset`: 9 empty cells, flags cleared. -/
def reset : EnvState :=
  { board := List.replicate 9 none, done := false, winner := none }

/-- Source `TicTacToeEnv.get_state`. -/
def EnvState.get_state (env : EnvState) : State :=
  env.board

/-- Index collection of the list comprehension in `get_available_actions`:
`[i for i, cell in enumerate(board) if cell == " "]`, threading the index. -/
def emptyIndices : Board → Nat → List Nat
  | [], _ => []
  | c :: rest, i =>
    if c = none then i :: emptyIndices rest (i + 1) else emptyIndices rest (i + 1)

/-- Source `TicTacToeEnv.get_available_actions`. -/
def EnvState.get_available_actions (env : EnvState) : List Action :=
  emptyIndices env.board 0

/-- Python `" " not in self.board`. -/
def isFull (b : Board) : Bool :=
  b.all fun c => c.isSome

/-- The 8 win lines of `check_winner` (3 rows, 3 columns, 2 diagonals). -/
def lines : List (Nat × Nat × Nat) :=
  [(0, 1, 2), (3, 4, 5), (6, 7, 8),
   (0, 3, 6), (1, 4, 7), (2, 5, 8),
   (0, 4, 8), (2, 4, 6)]

/-- One iteration of the `for line in lines` loop body:
`board[a] == board[b] == board[c] != " "` returns `board[a]`. -/
def lineWinner (b : Board) (t : Nat × Nat × Nat) : Option Mark :=
  match b.getD t.1 none with
  | none => none
  | some m =>
    if b.getD t.2.1 none = some m ∧ b.getD t.2.2 none = some m then some m else none

/-- The `for line in lines` loop: first line whose three cells hold one mark. -/
def firstLineWin (b : Board) : List (Nat × Nat × Nat) → Option Mark
  | [] => none
  | t :: rest =>
    match lineWinner b t with
    | some m => some m
    | none => firstLineWin b rest

/-- Source `TicTacToeEnv.check_winner`. -/
def check_winner (b : Board) : Option Winner :=
  match firstLineWin b lines with
  | some m => some (.mark m)
  | none => if isFull b then some .draw else none

/-- Source `TicTacToeEnv.step`: returns the environment after the call together
with the `(reward, done)` part of the Python return value (the returned
state tuple is the `board` of the returned environment). -/
def step (env : EnvState) (action : Action) (player : Mark) : EnvState × ℚ × Bool :=
  if env.board.getD action none ≠ none ∨ env.done = true then
    (env, -10, env.done)
  else
    let b' := env.board.set action (some player)
    match check_winner b' with
    | some w =>
      let reward : ℚ :=
        match w with
        | .mark m => if m = player then 1 else -1
        | .draw => 1 / 2
      ({ board := b', done := true, winner := some w }, reward, true)
    | none =>
      if isFull b' then
        ({ board := b', done := true, winner := some .draw }, 1 / 2, true)
      else
        ({ board := b', done := false, winner := none }, 0, false)

/-- Does some mark occupy all three cells of some win line? -/
def hasLine (b : Board) (m : Mark) : Bool :=
  lines.any fun t =>
    decide (b.getD t.1 none = some m ∧ b.getD t.2.1 none = some m ∧ b.getD t.2.2 none = some m)

/-- Apply a sequence of `(action, player)` moves to a fresh environment
(used to exhibit reachable states). -/
def playMoves (moves : List (Action × Mark)) : EnvState :=
  moves.foldl (fun env mv => (step env mv.1 mv.2).1) reset

/-!
## The Q-table

`self.q_table = collections.defaultdict(lambda: collections.defaultdict(float))`.
A Python dict is modelled as an association list without duplicate keys;
`alookup` is dict lookup, `aset` is dict item assignment, and `vivify`
is the entry insertion a `defaultdict` performs on a missing-key read.
-/

/-- Dict lookup. -/
def alookup {α β : Type} [DecidableEq α] : List (α × β) → α → Option β
  | [], _ => none
  | (k, v) :: rest, a => if k = a then some v else alookup rest a

/-- Dict item assignment `d[k] = v` (overwrite or append). -/
def aset {α β : Type} [DecidableEq α] : List (α × β) → α → β → List (α × β)
  | [], k, v => [(k, v)]
  | (k', v') :: rest, k, v =>
    if k' = k then (k, v) :: rest else (k', v') :: aset rest k v

abbrev Inner := List (Action × ℚ)

abbrev QTable := List (State × Inner)

/-- Python `defaultdict.__getitem__` on a missing key inserts a default entry;
this is the insertion part of `q_table[state]` for the outer table
(the default is an empty inner dict). -/
def vivify (q : QTable) (s : State) : QTable :=
  match alookup q s with
  | some _ => q
  | none => q ++ [(s, [])]

/-- The value read by `q_table[state].get(action, 0.0)` (and, value-wise,
by `q_table[state][action]` since the inner `defaultdict(float)`
defaults to `0.0`). -/
def getQ (q : QTable) (s : State) (a : Action) : ℚ :=
  match alookup q s with
  | none => 0
  | some inner => (alookup inner a).getD 0

/-- Python `q_table[state][action] = v`. -/
def setQ (q : QTable) (s : State) (a : Action) (v : ℚ) : QTable :=
  match alookup q s with
  | none => q ++ [(s, [(a, v)])]
  | some inner => aset q s (aset inner a v)

/-- Is a value actually stored (as opposed to read off the 0.0 default)? -/
def storedQ (q : QTable) (s : State) (a : Action) : Bool :=
  match alookup q s with
  | none => false
  | some inner => (alookup inner a).isSome

/-- Python `max` over a nonempty list (the `[]` case is never used by the
source, which guards against empty lists first). -/
def maxListQ : List ℚ → ℚ
  | [] => 0
  | x :: rest => rest.foldl max x

/-!
## The agent
-/

/-- The fields of `QLearningAgent` (`player_mark`, `q_table`, `lr`,
`gamma`, `epsilon`, `epsilon_decay`, `min_epsilon`). -/
structure Agent where
  player_mark : Mark
  q_table : QTable
  lr : ℚ
  gamma : ℚ
  epsilon : ℚ
  epsilon_decay : ℚ
  min_epsilon : ℚ
deriving DecidableEq

/-- Source `QLearningAgent.__init__` with the source's default hyperparameters. -/
def mkAgent (m : Mark) : Agent :=
  { player_mark := m, q_table := [], lr := 1 / 10, gamma := 9 / 10,
    epsilon := 1, epsilon_decay := 999 / 1000, min_epsilon := 1 / 100 }

/-- Source `QLearningAgent.choose_action`.  `explore` models the test
`random.uniform(0, 1) < self.epsilon`; `pick` models `random.choice`
(an index into the list being chosen from, taken modulo its length).
Returns the chosen action (`none` models Python `None`) and the agent
afterwards: the exploitation branch reads `self.q_table[state]`, which
inserts an empty entry for `state` when missing. -/
def choose_action (ag : Agent) (state : State) (available_actions : List Action)
    (explore : Bool) (pick : Nat) : Option Action × Agent :=
  if available_actions.isEmpty then
    (none, ag)
  else if explore then
    (some (available_actions.getD (pick % available_actions.length) 0), ag)
  else
    let q1 := vivify ag.q_table state
    let available_q := available_actions.map fun a => (a, getQ q1 state a)
    let max_q := maxListQ (available_q.map Prod.snd)
    let best := (available_q.filter fun p => p.2 = max_q).map Prod.fst
    (some (best.getD (pick % best.length) 0), { ag with q_table := q1 })

/-- Source `QLearningAgent.update_q_table`. -/
def update_q_table (ag : Agent) (state : State) (action : Action) (reward : ℚ)
    (next_state : State) (next_available_actions : List Action) : Agent :=
  let q1 :=
    if next_available_actions.isEmpty then ag.q_table
    else vivify ag.q_table next_state
  let max_next_q : ℚ :=
    if next_available_actions.isEmpty then 0
    else maxListQ (next_available_actions.map fun act => getQ q1 next_state act)
  let q2 := vivify q1 state
  let current_q := getQ q2 state action
  let new_q := current_q + ag.lr * (reward + ag.gamma * max_next_q - current_q)
  { ag with q_table := setQ q2 state action new_q }

/-- Source `QLearningAgent.decay_exploration`. -/
def decay_exploration (ag : Agent) : Agent :=
  { ag with epsilon := max ag.min_epsilon (ag.epsilon * ag.epsilon_decay) }

/-- Source `QLearningAgent.save_q_table`: `pickle.dump(dict(self.q_table), f)`
serialises the entries as they stand (the file-writing mechanics are
external to the core). -/
def save_q_table (q : QTable) : QTable :=
  q

/-- Source `QLearningAgent.load_q_table` on an existing artifact: rebuilds a
fresh table and executes `self.q_table[state] = defaultdict(float, actions)`
for each saved entry. -/
def load_q_table (saved : QTable) : QTable :=
  saved.foldl (fun acc p => aset acc p.1 p.2) []

/-!
## The training loop (`train` in the source)

Randomness is supplied by an oracle `Nat → Bool × Nat` giving the
`(explore, pick)` decisions of the n-th `choose_action` call.  To make
the update pattern of a turn inspectable, each `update_q_table` call the
loop performs is also recorded in a trace.
-/

/-- Which of the four update sites of a training turn performed a call:
the immediate mover update (line 164 of the source), the deferred
opponent update (line 173), the extra terminal mover update (line 182),
and the terminal opponent update (line 187). -/
inductive UpdateKind where
  | immediate
  | deferred
  | finalMover
  | finalOpp
deriving DecidableEq, Repr

/-- The arguments of one `update_q_table` call made by the training loop,
together with the mark of the agent whose table was updated. -/
structure UpdateCall where
  mark : Mark
  state : State
  action : Action
  reward : ℚ
  next_state : State
  next_avail : List Action
deriving DecidableEq, Repr

abbrev Trace := List (UpdateKind × UpdateCall)

/-- The two agents, indexed by mark (`agent_x`, `agent_o`). -/
structure Agents where
  x : Agent
  o : Agent

/-- The agent object currently bound to a mark. -/
def Agents.get (p : Agents) : Mark → Agent
  | .X => p.x
  | .O => p.o

/-- Replace the agent bound to a mark. -/
def Agents.set (p : Agents) : Mark → Agent → Agents
  | .X => fun a => { p with x := a }
  | .O => fun a => { p with o := a }

/-- The `last_move` dict of an episode, keyed by mark. -/
structure LastMove where
  x : Option (State × Action)
  o : Option (State × Action)

/-- Python `mark in last_move` / `last_move[mark]`. -/
def LastMove.get (lm : LastMove) : Mark → Option (State × Action)
  | .X => lm.x
  | .O => lm.o

/-- Python `last_move[mark] = (state, action)`. -/
def LastMove.set (lm : LastMove) : Mark → State × Action → LastMove
  | .X => fun p => { lm with x := some p }
  | .O => fun p => { lm with o := some p }

/-- Source line `opponent_reward = -reward if reward != 0.5 else reward`. -/
def opponentReward (reward : ℚ) : ℚ :=
  if reward = 1 / 2 then reward else -reward

/-- One iteration of the `while not done` body of `train`.  Returns
`(env, state, currentMark, agents, lastMove, emittedTrace, loopAgain)`:
`loopAgain = true` means the turn fell through to the agent swap;
`false` means the episode ended (terminal move, or `action is None`). -/
def turnBody (env : EnvState) (state : State) (cm : Mark) (ags : Agents)
    (lm : LastMove) (explore : Bool) (pick : Nat) :
    EnvState × State × Mark × Agents × LastMove × Trace × Bool :=
  let available_actions := env.get_available_actions
  let cr := choose_action (ags.get cm) state available_actions explore pick
  let ags1 := ags.set cm cr.2
  match cr.1 with
  | none => (env, state, cm, ags1, lm, [], false)
  | some action =>
    let sr := step env action cm
    let env' := sr.1
    let reward := sr.2.1
    let done := sr.2.2
    let next_state := env'.get_state
    let next_available_actions := env'.get_available_actions
    let ags2 := ags1.set cm
      (update_q_table (ags1.get cm) state action reward next_state next_available_actions)
    let tr1 : Trace :=
      [(.immediate, ⟨cm, state, action, reward, next_state, next_available_actions⟩)]
    let om := cm.other
    let oppR := opponentReward reward
    let step6 : Agents × Trace :=
      match lm.get cm with
      | some pa =>
        (ags2.set om (update_q_table (ags2.get om) pa.1 pa.2 oppR state available_actions),
         tr1 ++ [(.deferred, ⟨om, pa.1, pa.2, oppR, state, available_actions⟩)])
      | none => (ags2, tr1)
    let ags3 := step6.1
    let tr2 := step6.2
    let lm' := lm.set om (state, action)
    let state' := next_state
    if done then
      let ags4 := ags3.set cm
        (update_q_table (ags3.get cm) state' action reward next_state [])
      let tr3 := tr2 ++ [(.finalMover, ⟨cm, state', action, reward, next_state, []⟩)]
      let fin : Agents × Trace :=
        match lm'.get cm with
        | some pa =>
          (ags4.set om (update_q_table (ags4.get om) pa.1 pa.2 oppR next_state []),
           tr3 ++ [(.finalOpp, ⟨om, pa.1, pa.2, oppR, next_state, []⟩)])
        | none => (ags4, tr3)
      (env', state', cm, fin.1, lm', fin.2, false)
    else
      (env', state', om, ags3, lm', tr2, true)

/-- The `while not done` loop.  A tic-tac-toe episode takes at most 9
turns (every turn fills one cell), so fuel 9 never runs out. -/
def turnLoop (oracle : Nat → Bool × Nat) :
    Nat → EnvState → State → Mark → Agents → LastMove → Nat → Trace →
    EnvState × Agents × Nat × Trace
  | 0, env, _, _, ags, _, ctr, tr => (env, ags, ctr, tr)
  | fuel + 1, env, state, cm, ags, lm, ctr, tr =>
    if env.done then (env, ags, ctr, tr)
    else
      let d := oracle ctr
      let r := turnBody env state cm ags lm d.1 d.2
      if r.2.2.2.2.2.2 then
        turnLoop oracle fuel r.1 r.2.1 r.2.2.1 r.2.2.2.1 r.2.2.2.2.1 (ctr + 1)
          (tr ++ r.2.2.2.2.2.1)
      else
        (r.1, r.2.2.2.1, ctr + 1, tr ++ r.2.2.2.2.2.1)

/-- One episode of `train`: `state = env.reset()`, X moves first,
`last_move = {}`. -/
def runEpisode (oracle : Nat → Bool × Nat) (ax ao : Agent) (ctr : Nat) :
    EnvState × Agents × Nat × Trace :=
  turnLoop oracle 9 reset reset.board .X ⟨ax, ao⟩ ⟨none, none⟩ ctr []

/-- The `stats` tally (`if winner in stats: stats[winner] += 1`). -/
structure Stats where
  x : Nat
  o : Nat
  draw : Nat
deriving DecidableEq, Repr

/-- Count an episode's winner into the tally. -/
def tally (stats : Stats) : Option Winner → Stats
  | some (.mark .X) => { stats with x := stats.x + 1 }
  | some (.mark .O) => { stats with o := stats.o + 1 }
  | some .draw => { stats with draw := stats.draw + 1 }
  | none => stats

/-- Python `(episode + 1) % print_interval` raises `ZeroDivisionError` in Python
when `print_interval == 0`. -/
inductive TrainError where
  | zeroDivision
deriving DecidableEq, Repr

/-- The `for episode in range(num_episodes)` loop, by remaining episode
count.  After each episode both agents decay exploration, and the
progress-print check divides by `print_interval`. -/
def trainGo (oracle : Nat → Bool × Nat) (print_interval : Nat) :
    Nat → Agent → Agent → Stats → Nat → Except TrainError Stats
  | 0, _, _, stats, _ => .ok stats
  | rem + 1, ax, ao, stats, ctr =>
    let r := runEpisode oracle ax ao ctr
    let stats' := tally stats r.1.winner
    let ax' := decay_exploration r.2.1.x
    let ao' := decay_exploration r.2.1.o
    if print_interval = 0 then .error .zeroDivision
    else trainGo oracle print_interval rem ax' ao' stats' r.2.2.1

/-- Source `train(env, agent_x, agent_o, num_episodes)` (the fresh environment
the caller passes is reset at the start of each episode, so only the
agents and episode count matter). -/
def train (ax ao : Agent) (num_episodes : Nat) (oracle : Nat → Bool × Nat) :
    Except TrainError Stats :=
  trainGo oracle (num_episodes / 10) num_episodes ax ao ⟨0, 0, 0⟩ 0

/-!
## Derived definitions used by the statements
-/

/-- Spec wording of the bootstrap term of the update rule: 0.0 when
`next_available_actions` is empty, otherwise the maximum stored estimate
(default 0.0) over `next_available_actions`. -/
def maxNextQ (q : QTable) (next_state : State) (next_available_actions : List Action) : ℚ :=
  if next_available_actions.isEmpty then 0
  else maxListQ (next_available_actions.map fun act => getQ q next_state act)

/-- Iterated `update_q_table` with fixed arguments. -/
def nfoldUpdate (ag : Agent) (s : State) (a : Action) (r : ℚ) (ns : State)
    (nas : List Action) : Nat → Agent
  | 0 => ag
  | n + 1 => update_q_table (nfoldUpdate ag s a r ns nas n) s a r ns nas

/-- Iterated `decay_exploration`. -/
def decayIter (ag : Agent) : Nat → Agent
  | 0 => ag
  | n + 1 => decay_exploration (decayIter ag n)

/-!
## Concrete fixtures for counterexamples and witnesses
-/

/-- A reachable terminal environment where X has just won with four
cells still empty: X plays 0, O plays 3, X plays 1, O plays 4, X plays 2. -/
def winEnv : EnvState :=
  playMoves [(0, .X), (3, .O), (1, .X), (4, .O), (2, .X)]

/-- Decision oracle replaying the same five moves through the trainer:
always explore, picking indices 0, 2, 0, 1, 0 into the successive
available-action lists (yielding moves 0, 3, 1, 4, 2). -/
def winOracle : Nat → Bool × Nat :=
  fun n => (true, [0, 2, 0, 1, 0].getD n 0)

/-- Trace of update calls of the X-wins training episode. -/
def winTrace : Trace :=
  (runEpisode winOracle (mkAgent .X) (mkAgent .O) 0).2.2.2

/-- Placeholder entry for total list indexing into a trace. -/
def dfltUpd : UpdateKind × UpdateCall :=
  (.immediate, ⟨.X, [], 0, 0, [], []⟩)

/-- The board just before X's winning move of the episode above. -/
def preWinEnv : EnvState :=
  { board := [some .X, some .X, none, some .O, some .O, none, none, none, none],
    done := false, winner := none }

/-- The environment right after X's winning move on `preWinEnv`. -/
def postWinEnv : EnvState :=
  { board := [some .X, some .X, some .X, some .O, some .O, none, none, none, none],
    done := true, winner := some (.mark .X) }

/-- An agent whose hyperparameters are integral rationals, used to keep
witness side conditions kernel-computable. -/
def unitAgent (m : Mark) : Agent :=
  { player_mark := m, q_table := [], lr := 1, gamma := 1,
    epsilon := 1, epsilon_decay := 1, min_epsilon := 0 }

/-- An environment with cell 0 already occupied by X. -/
def occEnv : EnvState :=
  (step reset 0 .X).1

/-- A one-entry Q-table used to witness the serialization round trip. -/
def sampleQ : QTable :=
  [(reset.board, [(0, 1)])]

/-- A distinct state used where statements need `next_state ≠ state`. -/
def fullXBoard : State :=
  List.replicate 9 (some Mark.X)

/-!
## Association-list lemmas
-/

theorem alookup_append {α β : Type} [DecidableEq α] (l₁ l₂ : List (α × β)) (k : α) :
    alookup (l₁ ++ l₂) k =
      match alookup l₁ k with
      | some v => some v
      | none => alookup l₂ k := by
  induction l₁ with
  | nil => simp [alookup]
  | cons p rest ih =>
    obtain ⟨k', v'⟩ := p
    by_cases h : k' = k <;> simp [alookup, h, ih]

theorem alookup_aset_self {α β : Type} [DecidableEq α] (l : List (α × β)) (k : α) (v : β) :
    alookup (aset l k v) k = some v := by
  induction l with
  | nil => simp [aset, alookup]
  | cons p rest ih =>
    obtain ⟨k', v'⟩ := p
    by_cases h : k' = k <;> simp [aset, alookup, h, ih]

theorem alookup_aset_other {α β : Type} [DecidableEq α] (l : List (α × β)) (k k' : α) (v : β)
    (h : k' ≠ k) : alookup (aset l k v) k' = alookup l k' := by
  induction l with
  | nil => simp [aset, alookup, Ne.symm h]
  | cons p rest ih =>
    obtain ⟨ka, va⟩ := p
    by_cases hk : ka = k
    · subst hk
      simp [aset, alookup, Ne.symm h]
    · simp [aset, alookup, hk, ih]

theorem alookup_eq_none_of_not_mem {α β : Type} [DecidableEq α] (l : List (α × β)) (k : α)
    (h : k ∉ l.map Prod.fst) : alookup l k = none := by
  induction l with
  | nil => rfl
  | cons p rest ih =>
    obtain ⟨k', v'⟩ := p
    simp only [List.map_cons, List.mem_cons] at h
    push_neg at h
    simp [alookup, Ne.symm h.1, ih h.2]

/-!
## Q-table lemmas
-/

theorem getQ_vivify (q : QTable) (t s : State) (a : Action) :
    getQ (vivify q t) s a = getQ q s a := by
  unfold vivify
  cases hq : alookup q t with
  | some inner => rfl
  | none =>
    unfold getQ
    rw [alookup_append]
    cases hs : alookup q s with
    | some inner => rfl
    | none =>
      by_cases hst : t = s
      · subst hst
        simp [alookup]
      · simp [alookup, hst]

theorem getQ_setQ_self (q : QTable) (s : State) (a : Action) (v : ℚ) :
    getQ (setQ q s a v) s a = v := by
  unfold setQ
  cases hq : alookup q s with
  | none =>
    unfold getQ
    rw [alookup_append, hq]
    simp [alookup]
  | some inner =>
    unfold getQ
    rw [alookup_aset_self]
    simp [alookup_aset_self]

theorem getQ_setQ_other (q : QTable) (s s' : State) (a a' : Action) (v : ℚ)
    (h : s' ≠ s ∨ a' ≠ a) : getQ (setQ q s a v) s' a' = getQ q s' a' := by
  by_cases hst : s' = s
  · subst hst
    rcases h with h | h
    · exact absurd rfl h
    · unfold setQ
      cases hq : alookup q s' with
      | none =>
        unfold getQ
        rw [alookup_append, hq]
        simp [alookup, Ne.symm h]
      | some inner =>
        unfold getQ
        rw [alookup_aset_self, hq]
        have hi : alookup (aset inner a v) a' = alookup inner a' :=
          alookup_aset_other inner a a' v h
        simp [hi]
  · unfold setQ
    cases hq : alookup q s with
    | none =>
      unfold getQ
      rw [alookup_append]
      cases hs' : alookup q s' with
      | some inner => rfl
      | none => simp [alookup, Ne.symm hst]
    | some inner =>
      unfold getQ
      rw [alookup_aset_other q s s' (aset inner a v) hst]

theorem getQ_eq_zero_of_not_storedQ (q : QTable) (s : State) (a : Action)
    (h : storedQ q s a = false) : getQ q s a = 0 := by
  unfold storedQ at h
  unfold getQ
  cases hq : alookup q s with
  | none => rfl
  | some inner =>
    rw [hq] at h
    have h' : (alookup inner a).isSome = false := h
    show (alookup inner a).getD 0 = 0
    cases hi : alookup inner a with
    | none => rfl
    | some v => rw [hi] at h'; simp at h'

/-!
## Update-rule lemmas
-/

theorem update_q_table_lr (ag : Agent) (s : State) (a : Action) (r : ℚ) (ns : State)
    (nas : List Action) : (update_q_table ag s a r ns nas).lr = ag.lr := rfl

theorem update_q_table_gamma (ag : Agent) (s : State) (a : Action) (r : ℚ) (ns : State)
    (nas : List Action) : (update_q_table ag s a r ns nas).gamma = ag.gamma := rfl

theorem getQ_update_self (ag : Agent) (s : State) (a : Action) (r : ℚ) (ns : State)
    (nas : List Action) :
    getQ (update_q_table ag s a r ns nas).q_table s a
      = getQ ag.q_table s a
        + ag.lr * (r + ag.gamma * maxNextQ ag.q_table ns nas - getQ ag.q_table s a) := by
  simp only [update_q_table, maxNextQ]
  by_cases hnas : nas.isEmpty = true <;>
    simp [hnas, getQ_setQ_self, getQ_vivify]

theorem getQ_update_other (ag : Agent) (s : State) (a : Action) (r : ℚ) (ns : State)
    (nas : List Action) (s' : State) (a' : Action) (h : s' ≠ s ∨ a' ≠ a) :
    getQ (update_q_table ag s a r ns nas).q_table s' a' = getQ ag.q_table s' a' := by
  simp only [update_q_table]
  rw [getQ_setQ_other _ _ _ _ _ _ h, getQ_vivify]
  by_cases hnas : nas.isEmpty = true <;> simp [hnas, getQ_vivify]

theorem nfoldUpdate_lr (ag : Agent) (s : State) (a : Action) (r : ℚ) (ns : State)
    (nas : List Action) (n : Nat) : (nfoldUpdate ag s a r ns nas n).lr = ag.lr := by
  induction n with
  | zero => rfl
  | succ n ih => rw [nfoldUpdate, update_q_table_lr, ih]

theorem nfoldUpdate_gamma (ag : Agent) (s : State) (a : Action) (r : ℚ) (ns : State)
    (nas : List Action) (n : Nat) : (nfoldUpdate ag s a r ns nas n).gamma = ag.gamma := by
  induction n with
  | zero => rfl
  | succ n ih => rw [nfoldUpdate, update_q_table_gamma, ih]

theorem getQ_nfold_ns (ag : Agent) (s : State) (a : Action) (r : ℚ) (ns : State)
    (nas : List Action) (hns : ns ≠ s) (n : Nat) (act : Action) :
    getQ (nfoldUpdate ag s a r ns nas n).q_table ns act = getQ ag.q_table ns act := by
  induction n with
  | zero => rfl
  | succ n ih =>
    rw [nfoldUpdate, getQ_update_other _ _ _ _ _ _ _ _ (Or.inl hns), ih]

theorem maxNextQ_congr (q₁ q₂ : QTable) (ns : State) (nas : List Action)
    (h : ∀ act, getQ q₁ ns act = getQ q₂ ns act) :
    maxNextQ q₁ ns nas = maxNextQ q₂ ns nas := by
  unfold maxNextQ
  by_cases hnas : nas.isEmpty = true
  · rw [if_pos hnas, if_pos hnas]
  · rw [if_neg hnas, if_neg hnas]
    have hmap : (fun act => getQ q₁ ns act) = fun act => getQ q₂ ns act :=
      funext h
    rw [hmap]

theorem getQ_nfold_succ (ag : Agent) (s : State) (a : Action) (r : ℚ) (ns : State)
    (nas : List Action) (hns : ns ≠ s) (n : Nat) :
    getQ (nfoldUpdate ag s a r ns nas (n + 1)).q_table s a
      = getQ (nfoldUpdate ag s a r ns nas n).q_table s a
        + ag.lr * (r + ag.gamma * maxNextQ ag.q_table ns nas
            - getQ (nfoldUpdate ag s a r ns nas n).q_table s a) := by
  show getQ (update_q_table (nfoldUpdate ag s a r ns nas n) s a r ns nas).q_table s a = _
  rw [getQ_update_self, nfoldUpdate_lr, nfoldUpdate_gamma,
    maxNextQ_congr _ ag.q_table ns nas (getQ_nfold_ns ag s a r ns nas hns n)]

theorem td_step_up (lr x t : ℚ) (h0 : 0 ≤ lr) (h1 : lr ≤ 1) (hx : x ≤ t) :
    x ≤ x + lr * (t - x) ∧ x + lr * (t - x) ≤ t := by
  constructor
  · nlinarith [mul_nonneg h0 (sub_nonneg.mpr hx)]
  · nlinarith [mul_nonneg (sub_nonneg.mpr h1) (sub_nonneg.mpr hx)]

theorem td_step_down (lr x t : ℚ) (h0 : 0 ≤ lr) (h1 : lr ≤ 1) (hx : t ≤ x) :
    x + lr * (t - x) ≤ x ∧ t ≤ x + lr * (t - x) := by
  constructor
  · nlinarith [mul_nonneg h0 (sub_nonneg.mpr hx)]
  · nlinarith [mul_nonneg (sub_nonneg.mpr h1) (sub_nonneg.mpr hx)]

theorem nfold_le_target (ag : Agent) (s : State) (a : Action) (r : ℚ) (ns : State)
    (nas : List Action) (hns : ns ≠ s) (h0 : 0 ≤ ag.lr) (h1 : ag.lr ≤ 1)
    (hx : getQ ag.q_table s a ≤ r + ag.gamma * maxNextQ ag.q_table ns nas) (n : Nat) :
    getQ (nfoldUpdate ag s a r ns nas n).q_table s a
      ≤ r + ag.gamma * maxNextQ ag.q_table ns nas := by
  induction n with
  | zero => exact hx
  | succ n ih =>
    rw [getQ_nfold_succ ag s a r ns nas hns n]
    exact (td_step_up ag.lr _ _ h0 h1 ih).2

theorem nfold_ge_target (ag : Agent) (s : State) (a : Action) (r : ℚ) (ns : State)
    (nas : List Action) (hns : ns ≠ s) (h0 : 0 ≤ ag.lr) (h1 : ag.lr ≤ 1)
    (hx : r + ag.gamma * maxNextQ ag.q_table ns nas ≤ getQ ag.q_table s a) (n : Nat) :
    r + ag.gamma * maxNextQ ag.q_table ns nas
      ≤ getQ (nfoldUpdate ag s a r ns nas n).q_table s a := by
  induction n with
  | zero => exact hx
  | succ n ih =>
    rw [getQ_nfold_succ ag s a r ns nas hns n]
    exact (td_step_down ag.lr _ _ h0 h1 ih).2

/-!
## Exploration-decay lemmas
-/

theorem decayIter_min_epsilon (ag : Agent) (n : Nat) :
    (decayIter ag n).min_epsilon = ag.min_epsilon := by
  induction n with
  | zero => rfl
  | succ n ih => rw [decayIter]; exact ih

theorem decayIter_epsilon_decay (ag : Agent) (n : Nat) :
    (decayIter ag n).epsilon_decay = ag.epsilon_decay := by
  induction n with
  | zero => rfl
  | succ n ih => rw [decayIter]; exact ih

theorem decayIter_epsilon_ge_floor (ag : Agent) (h4 : ag.min_epsilon ≤ ag.epsilon) (n : Nat) :
    ag.min_epsilon ≤ (decayIter ag n).epsilon := by
  induction n with
  | zero => exact h4
  | succ n ih =>
    show ag.min_epsilon ≤ max (decayIter ag n).min_epsilon _
    rw [decayIter_min_epsilon]
    exact le_max_left _ _

theorem decayIter_epsilon_mono (ag : Agent) (h2 : ag.epsilon_decay ≤ 1)
    (h3 : 0 ≤ ag.min_epsilon) (h4 : ag.min_epsilon ≤ ag.epsilon) (n : Nat) :
    (decayIter ag (n + 1)).epsilon ≤ (decayIter ag n).epsilon := by
  show max (decayIter ag n).min_epsilon ((decayIter ag n).epsilon * (decayIter ag n).epsilon_decay)
      ≤ (decayIter ag n).epsilon
  rw [decayIter_min_epsilon, decayIter_epsilon_decay]
  have hfloor : ag.min_epsilon ≤ (decayIter ag n).epsilon :=
    decayIter_epsilon_ge_floor ag h4 n
  have hnn : 0 ≤ (decayIter ag n).epsilon := le_trans h3 hfloor
  exact max_le hfloor (mul_le_of_le_one_right hnn h2)

/-!
## Environment lemmas
-/

theorem emptyIndices_eq_nil_iff (b : Board) (i : Nat) :
    emptyIndices b i = [] ↔ isFull b = true := by
  induction b generalizing i with
  | nil => simp [emptyIndices, isFull]
  | cons c rest ih =>
    cases c with
    | none => simp [emptyIndices, isFull]
    | some m =>
      simp only [emptyIndices, isFull, List.all_cons, Option.isSome_some, Bool.true_and]
      exact ⟨fun h => (ih (i + 1)).mp (by simpa using h),
        fun h => by simpa using (ih (i + 1)).mpr (by simpa [isFull] using h)⟩

theorem lineWinner_eq_some_iff (b : Board) (t : Nat × Nat × Nat) (m : Mark) :
    lineWinner b t = some m
      ↔ (b.getD t.1 none = some m ∧ b.getD t.2.1 none = some m ∧ b.getD t.2.2 none = some m) := by
  unfold lineWinner
  cases h1 : b.getD t.1 none with
  | none => simp [h1]
  | some m' =>
    show (if b.getD t.2.1 none = some m' ∧ b.getD t.2.2 none = some m'
        then some m' else none) = some m ↔ _
    by_cases h2 : b.getD t.2.1 none = some m' ∧ b.getD t.2.2 none = some m'
    · rw [if_pos h2]
      constructor
      · intro hm
        obtain rfl : m' = m := Option.some.inj hm
        exact ⟨rfl, h2.1, h2.2⟩
      · exact fun hp => hp.1
    · rw [if_neg h2]
      constructor
      · rintro ⟨⟩
      · rintro ⟨hm, hb, hc⟩
        obtain rfl : m' = m := Option.some.inj hm
        exact absurd ⟨hb, hc⟩ h2

theorem firstLineWin_eq_none_iff (b : Board) (L : List (Nat × Nat × Nat)) :
    firstLineWin b L = none ↔ ∀ t ∈ L, lineWinner b t = none := by
  induction L with
  | nil => simp [firstLineWin]
  | cons t rest ih =>
    unfold firstLineWin
    cases h : lineWinner b t with
    | some m => simp [h]
    | none => simp [h, ih]

theorem firstLineWin_mem (b : Board) (L : List (Nat × Nat × Nat)) (m : Mark)
    (h : firstLineWin b L = some m) : ∃ t ∈ L, lineWinner b t = some m := by
  induction L with
  | nil => exact absurd h (by simp [firstLineWin])
  | cons t rest ih =>
    unfold firstLineWin at h
    cases ht : lineWinner b t with
    | some m' =>
      rw [ht] at h
      obtain ⟨rfl⟩ := h
      exact ⟨t, List.mem_cons_self t rest, ht⟩
    | none =>
      rw [ht] at h
      obtain ⟨u, hu, hw⟩ := ih h
      exact ⟨u, List.mem_cons_of_mem t hu, hw⟩

theorem hasLine_iff (b : Board) (m : Mark) :
    hasLine b m = true
      ↔ ∃ t ∈ lines,
          b.getD t.1 none = some m ∧ b.getD t.2.1 none = some m ∧ b.getD t.2.2 none = some m := by
  unfold hasLine
  rw [List.any_eq_true]
  constructor
  · rintro ⟨t, ht, hdec⟩
    exact ⟨t, ht, of_decide_eq_true hdec⟩
  · rintro ⟨t, ht, hp⟩
    exact ⟨t, ht, decide_eq_true hp⟩

theorem hasLine_of_firstLineWin (b : Board) (m : Mark)
    (h : firstLineWin b lines = some m) : hasLine b m = true := by
  obtain ⟨t, ht, hw⟩ := firstLineWin_mem b lines m h
  exact (hasLine_iff b m).mpr ⟨t, ht, (lineWinner_eq_some_iff b t m).mp hw⟩

theorem firstLineWin_ne_none_of_hasLine (b : Board) (m : Mark)
    (h : hasLine b m = true) : firstLineWin b lines ≠ none := by
  intro hnone
  obtain ⟨t, ht, hp⟩ := (hasLine_iff b m).mp h
  have := (firstLineWin_eq_none_iff b lines).mp hnone t ht
  rw [(lineWinner_eq_some_iff b t m).mpr hp] at this
  exact Option.noConfusion this

theorem check_winner_mark (b : Board) (m : Mark)
    (h : check_winner b = some (.mark m)) : hasLine b m = true := by
  unfold check_winner at h
  cases hf : firstLineWin b lines with
  | some m' =>
    rw [hf] at h
    obtain ⟨h⟩ := h
    exact hasLine_of_firstLineWin b m hf
  | none =>
    rw [hf] at h
    by_cases hfull : isFull b = true
    · rw [if_pos hfull] at h
      exact absurd h (by simp)
    · rw [if_neg hfull] at h
      exact Option.noConfusion h

theorem check_winner_eq_none_iff (b : Board) :
    check_winner b = none
      ↔ (∀ m, hasLine b m = false) ∧ isFull b = false := by
  unfold check_winner
  cases hf : firstLineWin b lines with
  | some m' =>
    simp only [hf]
    constructor
    · rintro ⟨⟩
    · rintro ⟨hno, _⟩
      have := hno m'
      rw [hasLine_of_firstLineWin b m' hf] at this
      exact Bool.noConfusion this
  | none =>
    simp only [hf]
    by_cases hfull : isFull b = true
    · rw [if_pos hfull]
      constructor
      · rintro ⟨⟩
      · rintro ⟨_, hnf⟩
        rw [hfull] at hnf
        exact Bool.noConfusion hnf
    · rw [if_neg hfull]
      have hfull' : isFull b = false := by
        cases hb : isFull b
        · rfl
        · exact absurd hb hfull
      refine ⟨fun _ => ⟨fun m => ?_, hfull'⟩, fun _ => rfl⟩
      cases hb : hasLine b m
      · rfl
      · exact absurd hf (firstLineWin_ne_none_of_hasLine b m hb)

theorem check_winner_draw_iff (b : Board) :
    check_winner b = some .draw
      ↔ (∀ m, hasLine b m = false) ∧ isFull b = true := by
  unfold check_winner
  cases hf : firstLineWin b lines with
  | some m' =>
    simp only [hf]
    constructor
    · rintro ⟨⟩
    · rintro ⟨hno, _⟩
      have := hno m'
      rw [hasLine_of_firstLineWin b m' hf] at this
      exact Bool.noConfusion this
  | none =>
    simp only [hf]
    by_cases hfull : isFull b = true
    · rw [if_pos hfull]
      refine ⟨fun _ => ⟨fun m => ?_, hfull⟩, fun _ => rfl⟩
      cases hb : hasLine b m
      · rfl
      · exact absurd hf (firstLineWin_ne_none_of_hasLine b m hb)
    · rw [if_neg hfull]
      constructor
      · rintro ⟨⟩
      · rintro ⟨_, hf'⟩
        exact absurd hf' hfull

/-!
## Serialization lemmas
-/

theorem alookup_foldl_aset {α β : Type} [DecidableEq α] (l : List (α × β))
    (hnd : (l.map Prod.fst).Nodup) (acc : List (α × β)) (k : α) :
    alookup (l.foldl (fun acc p => aset acc p.1 p.2) acc) k
      = match alookup l k with
        | some v => some v
        | none => alookup acc k := by
  induction l generalizing acc with
  | nil => rfl
  | cons p rest ih =>
    obtain ⟨k', v'⟩ := p
    simp only [List.map_cons, List.nodup_cons] at hnd
    show alookup (rest.foldl (fun acc p => aset acc p.1 p.2) (aset acc k' v')) k
        = match alookup ((k', v') :: rest) k with
          | some v => some v
          | none => alookup acc k
    rw [ih hnd.2 (aset acc k' v')]
    by_cases hk : k' = k
    · subst hk
      have hrest : alookup rest k' = none :=
        alookup_eq_none_of_not_mem rest k' hnd.1
      simp [hrest, alookup, alookup_aset_self]
    · cases hr : alookup rest k with
      | some v => simp [alookup, hk, hr]
      | none => simp [alookup, hk, hr, alookup_aset_other acc k' k v' (Ne.symm hk)]

theorem alookup_load_save (q : QTable) (hnd : (q.map Prod.fst).Nodup) (s : State) :
    alookup (load_q_table (save_q_table q)) s = alookup q s := by
  unfold load_q_table save_q_table
  rw [alookup_foldl_aset q hnd [] s]
  cases h : alookup q s with
  | some v => rfl
  | none => rfl

/-!
## Trainer helpers
-/

theorem Mark.other_ne (m : Mark) : m.other ≠ m := by
  cases m <;> simp [Mark.other]

theorem LastMove.get_set_other (lm : LastMove) (m : Mark) (p : State × Action) :
    (lm.set m.other p).get m = lm.get m := by
  cases m <;> rfl

theorem board_set_ne (b : Board) (i : Nat) (p : Mark) (hlen : i < b.length)
    (hcell : b.getD i none = none) : b.set i (some p) ≠ b := by
  intro he
  have h1 : (b.set i (some p)).getD i none = some p := by
    rw [List.getD_eq_getElem?_getD, List.getElem?_set_self hlen]
    rfl
  rw [he, hcell] at h1
  exact Option.noConfusion h1

/-!
## Claim theorems
-/

/-- Claim C1, amended: for every environment, the available-actions list
is empty iff the board is full.  (The original claim — empty iff the
outcome is not in-progress — fails: a winning move ends the game while
empty cells remain, see `claim_C1_counterexample`.) -/
theorem claim_C1_available_empty_iff_full (env : EnvState) :
    env.get_available_actions = [] ↔ isFull env.board = true :=
  emptyIndices_eq_nil_iff env.board 0

/-- Claim C1 counterexample: a reachable environment (X plays 0, O plays
3, X plays 1, O plays 4, X plays 2) whose last step returned
terminal = true with outcome X-wins, yet `get_available_actions` returns
the four remaining empty cells rather than the empty list. -/
theorem claim_C1_counterexample :
    winEnv.done = true ∧ winEnv.winner = some (.mark .X) ∧
      winEnv.get_available_actions = [5, 6, 7, 8] ∧
      winEnv.get_available_actions ≠ [] := by
  decide

/-- Claim C5: calling `step` with the target cell occupied or the
environment already terminal returns the unchanged environment (board,
terminal flag and recorded winner all unmutated) together with reward
−10 and the existing terminal flag. -/
theorem claim_C5_invalid_move (env : EnvState) (action : Action) (player : Mark)
    (_hlen : action < env.board.length)
    (h : env.board.getD action none ≠ none ∨ env.done = true) :
    step env action player = (env, -10, env.done) := by
  unfold step
  rw [if_pos h]

/-- Claim C5 witness: stepping on the occupied cell 0 of `occEnv`. -/
theorem claim_C5_witness :
    occEnv.board.getD 0 none ≠ none ∧
      step occEnv 0 .O = (occEnv, -10, occEnv.done) := by
  constructor
  · decide
  · exact claim_C5_invalid_move occEnv 0 .O (by decide) (Or.inl (by decide))

/-- Claim C9: saving a Q-table and loading it back preserves the
estimate of every (state, action) pair, and any pair never stored reads
as 0.0 (not a missing-key failure) both before and after the round
trip.  The no-duplicate-keys hypothesis is the representation invariant
of a Python dict. -/
theorem claim_C9_roundtrip (q : QTable) (hnd : (q.map Prod.fst).Nodup) :
    (∀ s a, getQ (load_q_table (save_q_table q)) s a = getQ q s a) ∧
    (∀ s a, storedQ q s a = false →
      getQ q s a = 0 ∧ getQ (load_q_table (save_q_table q)) s a = 0) := by
  have hget : ∀ s a, getQ (load_q_table (save_q_table q)) s a = getQ q s a := by
    intro s a
    unfold getQ
    rw [alookup_load_save q hnd s]
  refine ⟨hget, fun s a hs => ?_⟩
  have h0 := getQ_eq_zero_of_not_storedQ q s a hs
  exact ⟨h0, by rw [hget s a]; exact h0⟩

/-- Claim C9 witness: round-tripping the one-entry table `sampleQ`. -/
theorem claim_C9_witness :
    (sampleQ.map Prod.fst).Nodup ∧
      getQ (load_q_table (save_q_table sampleQ)) reset.board 0 = getQ sampleQ reset.board 0 ∧
      (storedQ sampleQ fullXBoard 3 = false →
        getQ sampleQ fullXBoard 3 = 0 ∧
          getQ (load_q_table (save_q_table sampleQ)) fullXBoard 3 = 0) := by
  refine ⟨by decide, ?_, ?_⟩
  · exact (claim_C9_roundtrip sampleQ (by decide)).1 reset.board 0
  · exact (claim_C9_roundtrip sampleQ (by decide)).2 fullXBoard 3

/-- Claim C3, amended: `choose_action` never changes any stored
estimate — every (state, action) lookup reads the same value afterwards
— and `update_q_table` changes no value other than its single
(state, action) target; but `choose_action`'s exploitation branch does
insert an empty entry for the queried state (defaultdict
auto-vivification), so the table object itself is not left unchanged,
see `claim_C3_counterexample`. -/
theorem claim_C3_values_unchanged (ag : Agent) (s : State) (avail : List Action)
    (explore : Bool) (pick : Nat) (s₁ : State) (a₁ : Action)
    (ag' : Agent) (t : State) (b : Action) (r : ℚ) (ns : State) (nas : List Action)
    (s₂ : State) (b₂ : Action) (h : s₂ ≠ t ∨ b₂ ≠ b) :
    getQ (choose_action ag s avail explore pick).2.q_table s₁ a₁ = getQ ag.q_table s₁ a₁ ∧
    getQ (update_q_table ag' t b r ns nas).q_table s₂ b₂ = getQ ag'.q_table s₂ b₂ := by
  constructor
  · unfold choose_action
    by_cases he : avail.isEmpty = true
    · rw [if_pos he]
    · rw [if_neg he]
      by_cases hx : explore = true
      · rw [if_pos hx]
      · rw [if_neg hx]
        exact getQ_vivify ag.q_table s s₁ a₁
  · exact getQ_update_other ag' t b r ns nas s₂ b₂ h

/-- Claim C3 counterexample: on a fresh agent, an exploitation-branch
`choose_action` call adds a (state → empty mapping) entry to the
Q-table, so the table does not stay unchanged entry-wise. -/
theorem claim_C3_counterexample :
    (choose_action (mkAgent .X) reset.board reset.get_available_actions false 0).2.q_table
        ≠ (mkAgent .X).q_table ∧
      alookup (choose_action (mkAgent .X) reset.board
          reset.get_available_actions false 0).2.q_table reset.board = some [] ∧
      alookup (mkAgent .X).q_table reset.board = none := by
  decide

/-- Claim C3 witness: instantiating `claim_C3_values_unchanged`. -/
theorem claim_C3_witness :
    getQ (choose_action (unitAgent .X) reset.board [0] true 0).2.q_table reset.board 0
        = getQ (unitAgent .X).q_table reset.board 0 ∧
      getQ (update_q_table (unitAgent .O) reset.board 0 1 fullXBoard []).q_table fullXBoard 0
        = getQ (unitAgent .O).q_table fullXBoard 0 :=
  claim_C3_values_unchanged (unitAgent .X) reset.board [0] true 0 reset.board 0
    (unitAgent .O) reset.board 0 1 fullXBoard [] fullXBoard 0 (Or.inl (by decide))

/-- Claim C8: one `decay_exploration` call sets epsilon to
`max min_epsilon (epsilon * epsilon_decay)`, and under the hyperparameter
conditions the source's defaults satisfy (decay rate at most 1,
nonnegative floor not exceeding the initial rate) the epsilon sequence
is non-increasing and never falls below the floor. -/
theorem claim_C8_decay (ag : Agent) (h2 : ag.epsilon_decay ≤ 1)
    (h3 : 0 ≤ ag.min_epsilon) (h4 : ag.min_epsilon ≤ ag.epsilon) :
    (decay_exploration ag).epsilon = max ag.min_epsilon (ag.epsilon * ag.epsilon_decay) ∧
    (∀ n, (decayIter ag (n + 1)).epsilon ≤ (decayIter ag n).epsilon) ∧
    (∀ n, ag.min_epsilon ≤ (decayIter ag n).epsilon) :=
  ⟨rfl, fun n => decayIter_epsilon_mono ag h2 h3 h4 n,
    fun n => decayIter_epsilon_ge_floor ag h4 n⟩

/-- Claim C8 witness: the integral-parameter agent. -/
theorem claim_C8_witness :
    (decay_exploration (unitAgent .X)).epsilon
        = max (unitAgent .X).min_epsilon ((unitAgent .X).epsilon * (unitAgent .X).epsilon_decay) ∧
      (∀ n, (decayIter (unitAgent .X) (n + 1)).epsilon ≤ (decayIter (unitAgent .X) n).epsilon) ∧
      (∀ n, (unitAgent .X).min_epsilon ≤ (decayIter (unitAgent .X) n).epsilon) :=
  claim_C8_decay (unitAgent .X) (by decide) (by decide) (by decide)

/-- Claim C7: one `update_q_table` call stores
`current + lr * (reward + gamma * max_next - current)` where `max_next`
is 0.0 for an empty next-available list and the maximum stored estimate
(default 0.0) over it otherwise (`maxNextQ`); and with `0 ≤ lr ≤ 1`,
repeated updates with fixed inputs move the stored estimate
monotonically toward `reward + gamma * max_next` (non-decreasing and
bounded by the target from below it, non-increasing and bounded by the
target from above it). -/
theorem claim_C7_update (ag : Agent) (s : State) (a : Action) (r : ℚ) (ns : State)
    (nas : List Action) (h0 : 0 ≤ ag.lr) (h1 : ag.lr ≤ 1) (hns : ns ≠ s) :
    getQ (update_q_table ag s a r ns nas).q_table s a
      = getQ ag.q_table s a
        + ag.lr * (r + ag.gamma * maxNextQ ag.q_table ns nas - getQ ag.q_table s a) ∧
    (∀ n, getQ ag.q_table s a ≤ r + ag.gamma * maxNextQ ag.q_table ns nas →
      getQ (nfoldUpdate ag s a r ns nas n).q_table s a
          ≤ getQ (nfoldUpdate ag s a r ns nas (n + 1)).q_table s a ∧
        getQ (nfoldUpdate ag s a r ns nas n).q_table s a
          ≤ r + ag.gamma * maxNextQ ag.q_table ns nas) ∧
    (∀ n, r + ag.gamma * maxNextQ ag.q_table ns nas ≤ getQ ag.q_table s a →
      getQ (nfoldUpdate ag s a r ns nas (n + 1)).q_table s a
          ≤ getQ (nfoldUpdate ag s a r ns nas n).q_table s a ∧
        r + ag.gamma * maxNextQ ag.q_table ns nas
          ≤ getQ (nfoldUpdate ag s a r ns nas n).q_table s a) := by
  refine ⟨getQ_update_self ag s a r ns nas, fun n hx => ?_, fun n hx => ?_⟩
  · have hb := nfold_le_target ag s a r ns nas hns h0 h1 hx n
    refine ⟨?_, hb⟩
    rw [getQ_nfold_succ ag s a r ns nas hns n]
    exact (td_step_up ag.lr _ _ h0 h1 hb).1
  · have hb := nfold_ge_target ag s a r ns nas hns h0 h1 hx n
    refine ⟨?_, hb⟩
    rw [getQ_nfold_succ ag s a r ns nas hns n]
    exact (td_step_down ag.lr _ _ h0 h1 hb).1

/-- Claim C7 witness: a terminal-transition update on the
integral-parameter agent. -/
theorem claim_C7_witness :
    (0 ≤ (unitAgent .X).lr ∧ (unitAgent .X).lr ≤ 1 ∧ fullXBoard ≠ reset.board) ∧
      getQ (update_q_table (unitAgent .X) reset.board 4 1 fullXBoard []).q_table reset.board 4
        = getQ (unitAgent .X).q_table reset.board 4
          + (unitAgent .X).lr
            * (1 + (unitAgent .X).gamma * maxNextQ (unitAgent .X).q_table fullXBoard []
                - getQ (unitAgent .X).q_table reset.board 4) :=
  ⟨⟨by decide, by decide, by decide⟩,
    (claim_C7_update (unitAgent .X) reset.board 4 1 fullXBoard []
      (by decide) (by decide) (by decide)).1⟩

/-- Equation for `step` on a valid move of a non-terminal environment. -/
theorem step_valid_eq (env : EnvState) (action : Action) (player : Mark)
    (hcell : env.board.getD action none = none) (hdone : env.done = false) :
    step env action player =
      match check_winner (env.board.set action (some player)) with
      | some w =>
        ({ board := env.board.set action (some player), done := true, winner := some w },
          (match w with
            | .mark m => if m = player then (1 : ℚ) else -1
            | .draw => 1 / 2), true)
      | none =>
        if isFull (env.board.set action (some player)) then
          ({ board := env.board.set action (some player), done := true, winner := some .draw },
            1 / 2, true)
        else
          ({ board := env.board.set action (some player), done := false, winner := none },
            0, false) := by
  have hguard : ¬(env.board.getD action none ≠ none ∨ env.done = true) := by
    rintro (h | h)
    · exact h hcell
    · rw [hdone] at h
      exact Bool.noConfusion h
  unfold step
  rw [if_neg hguard]

/-- Claim C4: a valid `step` writes the mark into the cell, sets the
terminal flag iff the resulting board has a completed line or is full
(a full board with no line yields the draw outcome with reward 0.5),
and returns reward 1 when the recorded winner is the acting mark, −1
when it is the other mark, 0.5 on a draw, and 0 with no winner on a
non-terminal transition. -/
theorem claim_C4_valid_step (env : EnvState) (action : Action) (player : Mark)
    (_hlen : action < env.board.length)
    (hcell : env.board.getD action none = none)
    (hdone : env.done = false) :
    (step env action player).1.board = env.board.set action (some player) ∧
    (step env action player).1.done = (step env action player).2.2 ∧
    ((step env action player).2.2 = true ↔
      (∃ m, hasLine (env.board.set action (some player)) m = true)
        ∨ isFull (env.board.set action (some player)) = true) ∧
    (isFull (env.board.set action (some player)) = true ∧
        (∀ m, hasLine (env.board.set action (some player)) m = false) →
      (step env action player).1.winner = some .draw ∧
        (step env action player).2.1 = 1 / 2) ∧
    (∀ m, (step env action player).1.winner = some (.mark m) →
      hasLine (env.board.set action (some player)) m = true) ∧
    ((step env action player).1.winner = some (.mark player) →
      (step env action player).2.1 = 1) ∧
    (∀ m, m ≠ player → (step env action player).1.winner = some (.mark m) →
      (step env action player).2.1 = -1) ∧
    ((step env action player).1.winner = some .draw →
      (step env action player).2.1 = 1 / 2) ∧
    ((step env action player).2.2 = false →
      (step env action player).2.1 = 0 ∧ (step env action player).1.winner = none) := by
  rw [step_valid_eq env action player hcell hdone]
  cases hw : check_winner (env.board.set action (some player)) with
  | some w =>
    cases w with
    | mark m =>
      have hline : hasLine (env.board.set action (some player)) m = true :=
        check_winner_mark _ m hw
      refine ⟨rfl, rfl, ?_, ?_, ?_, ?_, ?_, ?_, ?_⟩
      · exact ⟨fun _ => Or.inl ⟨m, hline⟩, fun _ => rfl⟩
      · rintro ⟨_, hnl⟩
        rw [hnl m] at hline
        exact Bool.noConfusion hline
      · intro m' hm'
        have hmp : m = m' := Winner.mark.inj (Option.some.inj hm')
        exact hmp ▸ hline
      · intro hm'
        have hmp : m = player := Winner.mark.inj (Option.some.inj hm')
        show (if m = player then (1 : ℚ) else -1) = 1
        rw [if_pos hmp]
      · intro m' hne hm'
        have hmp : m = m' := Winner.mark.inj (Option.some.inj hm')
        show (if m = player then (1 : ℚ) else -1) = -1
        rw [if_neg (by rw [hmp]; exact hne)]
      · intro hd
        exact Winner.noConfusion (Option.some.inj hd)
      · intro hd
        exact Bool.noConfusion hd
    | draw =>
      obtain ⟨hnl, hfull⟩ := (check_winner_draw_iff _).mp hw
      refine ⟨rfl, rfl, ?_, ?_, ?_, ?_, ?_, ?_, ?_⟩
      · exact ⟨fun _ => Or.inr hfull, fun _ => rfl⟩
      · exact fun _ => ⟨rfl, rfl⟩
      · intro m' hm'
        exact Winner.noConfusion (Option.some.inj hm')
      · intro hm'
        exact Winner.noConfusion (Option.some.inj hm')
      · intro m' _ hm'
        exact Winner.noConfusion (Option.some.inj hm')
      · exact fun _ => rfl
      · intro hd
        exact Bool.noConfusion hd
  | none =>
    obtain ⟨hnl, hnf⟩ := (check_winner_eq_none_iff _).mp hw
    rw [if_neg (by rw [hnf]; exact Bool.false_ne_true)]
    refine ⟨rfl, rfl, ?_, ?_, ?_, ?_, ?_, ?_, ?_⟩
    · constructor
      · intro hd
        exact Bool.noConfusion hd
      · rintro (⟨m, hm⟩ | hfull)
        · rw [hnl m] at hm
          exact Bool.noConfusion hm
        · rw [hnf] at hfull
          exact Bool.noConfusion hfull
    · rintro ⟨hfull, _⟩
      rw [hnf] at hfull
      exact Bool.noConfusion hfull
    · intro m' hm'
      exact Option.noConfusion hm'
    · intro hm'
      exact Option.noConfusion hm'
    · intro m' _ hm'
      exact Option.noConfusion hm'
    · intro hd
      exact Option.noConfusion hd
    · exact fun _ => ⟨rfl, rfl⟩

/-- Claim C4 witness: the empty-board center move — reward 0,
non-terminal, eight cells left. -/
theorem claim_C4_witness :
    (step reset 4 .X).1.board = reset.board.set 4 (some .X) ∧
      ((step reset 4 .X).2.2 = true ↔
        (∃ m, hasLine (reset.board.set 4 (some .X)) m = true)
          ∨ isFull (reset.board.set 4 (some .X)) = true) := by
  have h := claim_C4_valid_step reset 4 .X (by decide) (by decide) (by decide)
  exact ⟨h.1, h.2.2.1⟩

/-- Inversion for a `step` that reported terminal on a non-terminal
environment: the move was valid and the mark was written. -/
theorem step_done_true_inv (env : EnvState) (action : Action) (player : Mark)
    (env' : EnvState) (reward : ℚ)
    (hdone : env.done = false)
    (hsr : step env action player = (env', reward, true)) :
    env.board.getD action none = none ∧
      env'.board = env.board.set action (some player) := by
  by_cases hg : env.board.getD action none ≠ none ∨ env.done = true
  · unfold step at hsr
    rw [if_pos hg] at hsr
    have h3 : env.done = true := congrArg (fun p => p.2.2) hsr
    rw [hdone] at h3
    exact Bool.noConfusion h3
  · have hg' := hg
    push_neg at hg'
    refine ⟨hg'.1, ?_⟩
    rw [step_valid_eq env action player hg'.1 hdone] at hsr
    cases hw : check_winner (env.board.set action (some player)) with
    | some w =>
      rw [hw] at hsr
      exact (congrArg (fun p => p.1.board) hsr).symm
    | none =>
      rw [hw] at hsr
      by_cases hfull : isFull (env.board.set action (some player)) = true
      · rw [if_pos hfull] at hsr
        exact (congrArg (fun p => p.1.board) hsr).symm
      · rw [if_neg hfull] at hsr
        have h3 : false = true := congrArg (fun p => p.2.2) hsr
        exact Bool.noConfusion h3

/-- Relation between the winner recorded by a valid `step` and the
returned reward. -/
theorem step_winner_reward (env : EnvState) (action : Action) (player : Mark)
    (env' : EnvState) (reward : ℚ) (done : Bool)
    (hdone : env.done = false) (hcell : env.board.getD action none = none)
    (hsr : step env action player = (env', reward, done)) :
    (∀ m, env'.winner = some (.mark m) →
      reward = (if m = player then (1 : ℚ) else -1)) ∧
    (env'.winner = some .draw → reward = 1 / 2) := by
  rw [step_valid_eq env action player hcell hdone] at hsr
  cases hw : check_winner (env.board.set action (some player)) with
  | some w =>
    rw [hw] at hsr
    cases w with
    | mark m' =>
      have hwin : env'.winner = some (.mark m') :=
        (congrArg (fun p => p.1.winner) hsr).symm
      have hrew : (if m' = player then (1 : ℚ) else -1) = reward :=
        congrArg (fun p => p.2.1) hsr
      constructor
      · intro m hm
        rw [hwin] at hm
        have hmm : m' = m := Winner.mark.inj (Option.some.inj hm)
        rw [← hrew, ← hmm]
      · intro hm
        rw [hwin] at hm
        exact Winner.noConfusion (Option.some.inj hm)
    | draw =>
      have hwin : env'.winner = some .draw :=
        (congrArg (fun p => p.1.winner) hsr).symm
      have hrew : (1 / 2 : ℚ) = reward := congrArg (fun p => p.2.1) hsr
      constructor
      · intro m hm
        rw [hwin] at hm
        exact Winner.noConfusion (Option.some.inj hm)
      · intro _
        exact hrew.symm
  | none =>
    rw [hw] at hsr
    by_cases hfull : isFull (env.board.set action (some player)) = true
    · rw [if_pos hfull] at hsr
      have hwin : env'.winner = some .draw := (congrArg (fun p => p.1.winner) hsr).symm
      have hrew : (1 / 2 : ℚ) = reward := congrArg (fun p => p.2.1) hsr
      constructor
      · intro m hm
        rw [hwin] at hm
        exact Winner.noConfusion (Option.some.inj hm)
      · intro _
        exact hrew.symm
    · rw [if_neg hfull] at hsr
      have hwin : env'.winner = none := (congrArg (fun p => p.1.winner) hsr).symm
      constructor
      · intro m hm
        rw [hwin] at hm
        exact Option.noConfusion hm
      · intro hm
        rw [hwin] at hm
        exact Option.noConfusion hm

/-- Claim C2, amended: when a move makes the environment terminal, the
additional final update for the mover does not repeat step 5's update:
because `state` has already been advanced to `next_state`, the final
call uses `next_state` both as its state and next-state argument and an
empty next-available list, so it touches table entry
`(next_state, action)` — a different entry from step 5's
`(state, action)`, since the move changed the board. -/
theorem claim_C2_final_update_shifted (env : EnvState) (state : State) (cm : Mark)
    (ags : Agents) (lm : LastMove) (explore : Bool) (pick : Nat)
    (action : Action) (ag' : Agent) (env' : EnvState) (reward : ℚ)
    (hdone : env.done = false)
    (hstate : state = env.board)
    (hlen : action < env.board.length)
    (hcr : choose_action (ags.get cm) state env.get_available_actions explore pick
        = (some action, ag'))
    (hsr : step env action cm = (env', reward, true)) :
    ((.immediate, ⟨cm, state, action, reward, env'.get_state, env'.get_available_actions⟩)
        ∈ (turnBody env state cm ags lm explore pick).2.2.2.2.2.1) ∧
    ((.finalMover, ⟨cm, env'.get_state, action, reward, env'.get_state, []⟩)
        ∈ (turnBody env state cm ags lm explore pick).2.2.2.2.2.1) ∧
    env'.get_state ≠ state := by
  obtain ⟨hcell, hboard⟩ := step_done_true_inv env action cm env' reward hdone hsr
  have hne : env'.get_state ≠ state := by
    rw [hstate]
    show env'.board ≠ env.board
    rw [hboard]
    exact board_set_ne env.board action cm hlen hcell
  refine ⟨?_, ?_, hne⟩ <;>
  · simp only [turnBody, hcr, hsr, LastMove.get_set_other]
    rcases hlm : lm.get cm with _ | pa <;>
      simp [hlm, List.mem_append]

/-- Claim C2 counterexample: in the concrete X-wins training episode
(`winTrace`), the mover's final terminal update (index 9) and the
mover's immediate step-5 update of the same turn (index 7) agree on
mark and action but disagree on the state argument (and on the
next-available list), so the same (state, action) entry is NOT updated
twice with identical arguments. -/
theorem claim_C2_counterexample :
    (winTrace.getD 7 dfltUpd).1 = .immediate ∧
    (winTrace.getD 9 dfltUpd).1 = .finalMover ∧
    (winTrace.getD 9 dfltUpd).2.mark = (winTrace.getD 7 dfltUpd).2.mark ∧
    (winTrace.getD 9 dfltUpd).2.action = (winTrace.getD 7 dfltUpd).2.action ∧
    (winTrace.getD 7 dfltUpd).2.state = preWinEnv.board ∧
    (winTrace.getD 9 dfltUpd).2.state = postWinEnv.board ∧
    (winTrace.getD 9 dfltUpd).2.state ≠ (winTrace.getD 7 dfltUpd).2.state ∧
    (winTrace.getD 9 dfltUpd).2.next_avail ≠ (winTrace.getD 7 dfltUpd).2.next_avail := by
  decide

/-- Claim C2 witness: the winning turn of the X-wins episode,
instantiating `claim_C2_final_update_shifted`. -/
theorem claim_C2_witness :
    ((.immediate, ⟨.X, preWinEnv.board, 2, 1, postWinEnv.get_state,
          postWinEnv.get_available_actions⟩)
        ∈ (turnBody preWinEnv preWinEnv.board .X ⟨mkAgent .X, mkAgent .O⟩
            ⟨some (reset.board, 0), none⟩ true 0).2.2.2.2.2.1) ∧
    ((.finalMover, ⟨.X, postWinEnv.get_state, 2, 1, postWinEnv.get_state, []⟩)
        ∈ (turnBody preWinEnv preWinEnv.board .X ⟨mkAgent .X, mkAgent .O⟩
            ⟨some (reset.board, 0), none⟩ true 0).2.2.2.2.2.1) ∧
    postWinEnv.get_state ≠ preWinEnv.board :=
  claim_C2_final_update_shifted preWinEnv preWinEnv.board .X ⟨mkAgent .X, mkAgent .O⟩
    ⟨some (reset.board, 0), none⟩ true 0 2 (mkAgent .X) postWinEnv 1
    (by decide) rfl (by decide) rfl rfl

/-- Claim C6: the deferred opponent updates of a training turn (the
step-6 update and the terminal close-out) pass reward
`reward` when the mover's reward is 0.5 and `-reward` otherwise; in
particular a winning move yields mover reward 1 and opponent reward −1,
and a draw yields 0.5 for both. -/
theorem claim_C6_opponent_reward (env : EnvState) (state : State) (cm : Mark)
    (ags : Agents) (lm : LastMove) (explore : Bool) (pick : Nat)
    (action : Action) (ag' : Agent) (env' : EnvState) (reward : ℚ) (done : Bool)
    (ps : State) (pa : Action)
    (hdone : env.done = false)
    (hcell : env.board.getD action none = none)
    (hcr : choose_action (ags.get cm) state env.get_available_actions explore pick
        = (some action, ag'))
    (hsr : step env action cm = (env', reward, done))
    (hlm : lm.get cm = some (ps, pa)) :
    ((.deferred, ⟨cm.other, ps, pa, (if reward = 1 / 2 then reward else -reward), state,
        env.get_available_actions⟩)
      ∈ (turnBody env state cm ags lm explore pick).2.2.2.2.2.1) ∧
    (done = true →
      (.finalOpp, ⟨cm.other, ps, pa, (if reward = 1 / 2 then reward else -reward),
          env'.get_state, []⟩)
        ∈ (turnBody env state cm ags lm explore pick).2.2.2.2.2.1) ∧
    (env'.winner = some (.mark cm) → reward = 1 ∧ opponentReward reward = -1) ∧
    (env'.winner = some .draw → reward = 1 / 2 ∧ opponentReward reward = 1 / 2) := by
  have hwr := step_winner_reward env action cm env' reward done hdone hcell hsr
  refine ⟨?_, ?_, ?_, ?_⟩
  · simp only [turnBody, hcr, hsr, hlm, opponentReward, LastMove.get_set_other]
    cases hd : done <;> simp [List.mem_append]
  · intro hd
    subst hd
    simp only [turnBody, hcr, hsr, hlm, opponentReward, LastMove.get_set_other]
    simp [List.mem_append]
  · intro hwin
    have h1 : reward = 1 := by
      have := hwr.1 cm hwin
      rw [if_pos rfl] at this
      exact this
    subst h1
    refine ⟨rfl, ?_⟩
    unfold opponentReward
    norm_num
  · intro hwin
    have h1 : reward = 1 / 2 := hwr.2 hwin
    subst h1
    refine ⟨rfl, ?_⟩
    unfold opponentReward
    rw [if_pos rfl]

/-- Claim C6 witness: the winning turn — mover reward 1, deferred
opponent update −1. -/
theorem claim_C6_witness :
    ((.deferred, ⟨Mark.other .X, reset.board, 0,
          (if (1 : ℚ) = 1 / 2 then (1 : ℚ) else -1), preWinEnv.board,
          preWinEnv.get_available_actions⟩)
      ∈ (turnBody preWinEnv preWinEnv.board .X ⟨mkAgent .X, mkAgent .O⟩
          ⟨some (reset.board, 0), none⟩ true 0).2.2.2.2.2.1) ∧
    (true = true →
      (.finalOpp, ⟨Mark.other .X, reset.board, 0,
          (if (1 : ℚ) = 1 / 2 then (1 : ℚ) else -1), postWinEnv.get_state, []⟩)
        ∈ (turnBody preWinEnv preWinEnv.board .X ⟨mkAgent .X, mkAgent .O⟩
            ⟨some (reset.board, 0), none⟩ true 0).2.2.2.2.2.1) ∧
    (postWinEnv.winner = some (.mark .X) →
      (1 : ℚ) = 1 ∧ opponentReward 1 = -1) ∧
    (postWinEnv.winner = some .draw →
      (1 : ℚ) = 1 / 2 ∧ opponentReward 1 = 1 / 2) :=
  claim_C6_opponent_reward preWinEnv preWinEnv.board .X ⟨mkAgent .X, mkAgent .O⟩
    ⟨some (reset.board, 0), none⟩ true 0 2 (mkAgent .X) postWinEnv 1 true
    reset.board 0 (by decide) (by decide) rfl rfl rfl

/-- Claim C10: training with an episode count between 1 and 9 computes
`print_interval = num_episodes / 10 = 0`, and the end-of-episode
progress check then divides by zero, so `train` fails with an error
instead of returning the tally. -/
theorem claim_C10_small_episode_count (ax ao : Agent) (oracle : Nat → Bool × Nat)
    (n : Nat) (h1 : 1 ≤ n) (h2 : n ≤ 9) :
    n / 10 = 0 ∧ train ax ao n oracle = .error .zeroDivision := by
  have hdiv : n / 10 = 0 := Nat.div_eq_of_lt (by omega)
  refine ⟨hdiv, ?_⟩
  obtain ⟨m, rfl⟩ : ∃ m, n = m + 1 := ⟨n - 1, by omega⟩
  unfold train
  rw [hdiv]
  simp [trainGo]

/-- Claim C10 witness: five episodes fail with the division error. -/
theorem claim_C10_witness :
    (1 ≤ 5 ∧ 5 ≤ 9) ∧
      train (mkAgent .X) (mkAgent .O) 5 (fun _ => (true, 0)) = .error .zeroDivision :=
  ⟨⟨by decide, by decide⟩,
    (claim_C10_small_episode_count (mkAgent .X) (mkAgent .O)
      (fun _ => (true, 0)) 5 (by decide) (by decide)).2⟩

end TicTacToe
